import Mathlib

/-!
Verification of the `simlog` discrete-event simulation kernel.

This file shallowly embeds the kernel of the repository — the simpy-derived
event queue (`SimLogEnvironment.step` in `engine/environment.py`), the
dispatch registry (`ComponentManager` in `engine/component_manager.py`),
the event variants (`events/events.py`) and the component abstraction
(`BaseComponent` in `engine/base.py`) — and proves or refutes the frozen
specification claims about it.

Conventions of the embedding:
* simpy's heap entries `(self._now + delay, priority, next(self._eid), event)`
  become triples of naturals plus an event record; `heappop` becomes a
  pop-minimum function on lists (the heap is an implementation of exactly
  that interface).
* Python `dict[key]` lookups that can raise `KeyError`, and attribute
  accesses that can raise `AttributeError`, return `Except PyErr _`.
* Python truthiness (`if not self.components`, `if not timeout`,
  `if _event.component_state`) is modelled by explicit `pyTruthy…`
  functions: `None`, `0`, `""` and `[]` are falsy.
* Python object identity (the `is` in `BaseComponent.update_state`) is
  modelled by giving each string object an object id (`PyStr.oid`)
  alongside its contents (`PyStr.val`).
-/

namespace Simlog

/-! ## Keys of the simpy event heap

A queue key is `(fire_time, priority, sequence)` exactly as pushed by
`Environment.schedule`.  `tripLe`/`tripLt` are the lexicographic orders
Python's tuple comparison gives the heap. -/

/-- Lexicographic `≤` on `(fire_time, priority, sequence)` keys,
Python tuple comparison as used by `heapq`. -/
def tripLe (a b : Nat × Nat × Nat) : Prop :=
  a.1 < b.1 ∨ (a.1 = b.1 ∧ (a.2.1 < b.2.1 ∨ (a.2.1 = b.2.1 ∧ a.2.2 ≤ b.2.2)))

/-- Lexicographic `<` on `(fire_time, priority, sequence)` keys. -/
def tripLt (a b : Nat × Nat × Nat) : Prop :=
  a.1 < b.1 ∨ (a.1 = b.1 ∧ (a.2.1 < b.2.1 ∨ (a.2.1 = b.2.1 ∧ a.2.2 < b.2.2)))

instance (a b : Nat × Nat × Nat) : Decidable (tripLe a b) := by
  unfold tripLe; exact inferInstance

instance (a b : Nat × Nat × Nat) : Decidable (tripLt a b) := by
  unfold tripLt; exact inferInstance

theorem tripLe_refl (a : Nat × Nat × Nat) : tripLe a a := by unfold tripLe; omega

theorem tripLe_trans {a b c : Nat × Nat × Nat} (hab : tripLe a b) (hbc : tripLe b c) :
    tripLe a c := by
  unfold tripLe at *; omega

theorem tripLe_total (a b : Nat × Nat × Nat) : tripLe a b ∨ tripLe b a := by
  unfold tripLe; omega

theorem tripLt_of_tripLe_of_ne_seq {a b : Nat × Nat × Nat}
    (h : tripLe a b) (hne : a.2.2 ≠ b.2.2) : tripLt a b := by
  unfold tripLe at h; unfold tripLt; omega

/-! ## Popping the minimum of the heap

`heappop` removes and returns the smallest entry of the queue.  `popMinBy k`
is that operation on a plain list, comparing entries through the key
function `k`. -/

/-- Pop the entry with the smallest `(time, priority, sequence)` key,
returning it together with the remaining entries.  This is the contract of
`heappop(self._queue)` in `SimLogEnvironment.step`. -/
def popMinBy (k : α → Nat × Nat × Nat) : List α → Option (α × List α)
  | [] => none
  | e :: es =>
    match popMinBy k es with
    | none => some (e, [])
    | some (m, rest) => if tripLe (k e) (k m) then some (e, es) else some (m, e :: rest)

theorem popMinBy_eq_none {k : α → Nat × Nat × Nat} {l : List α} :
    popMinBy k l = none ↔ l = [] := by
  cases l with
  | nil => simp [popMinBy]
  | cons a es =>
    simp only [popMinBy]
    cases popMinBy k es with
    | none => simp
    | some p =>
      obtain ⟨m, rest⟩ := p
      by_cases h : tripLe (k a) (k m) <;> simp [h]

theorem popMinBy_perm {k : α → Nat × Nat × Nat} :
    ∀ {l : List α} {e : α} {rest : List α},
      popMinBy k l = some (e, rest) → l.Perm (e :: rest) := by
  intro l
  induction l with
  | nil => intro e rest h; simp [popMinBy] at h
  | cons a es ih =>
    intro e rest h
    simp only [popMinBy] at h
    cases hpm : popMinBy k es with
    | none =>
      rw [hpm] at h
      dsimp only at h
      simp only [Option.some.injEq, Prod.mk.injEq] at h
      obtain ⟨he, hrest⟩ := h
      have hes : es = [] := popMinBy_eq_none.mp hpm
      subst he; subst hrest; subst hes
      exact List.Perm.refl _
    | some p =>
      obtain ⟨m, r⟩ := p
      rw [hpm] at h
      dsimp only at h
      by_cases hle : tripLe (k a) (k m)
      · rw [if_pos hle] at h
        simp only [Option.some.injEq, Prod.mk.injEq] at h
        obtain ⟨he, hrest⟩ := h
        subst he; subst hrest
        exact List.Perm.refl _
      · rw [if_neg hle] at h
        simp only [Option.some.injEq, Prod.mk.injEq] at h
        obtain ⟨he, hrest⟩ := h
        subst he; subst hrest
        exact ((ih hpm).cons a).trans (List.Perm.swap _ _ _)

theorem popMinBy_mem {k : α → Nat × Nat × Nat} {l : List α} {e : α} {rest : List α}
    (h : popMinBy k l = some (e, rest)) : e ∈ l :=
  (popMinBy_perm h).symm.mem_iff.mp (List.mem_cons_self _ _)

theorem popMinBy_le {k : α → Nat × Nat × Nat} :
    ∀ {l : List α} {e : α} {rest : List α},
      popMinBy k l = some (e, rest) → ∀ x ∈ l, tripLe (k e) (k x) := by
  intro l
  induction l with
  | nil => intro e rest h; simp [popMinBy] at h
  | cons a es ih =>
    intro e rest h x hx
    simp only [popMinBy] at h
    cases hpm : popMinBy k es with
    | none =>
      rw [hpm] at h
      dsimp only at h
      simp only [Option.some.injEq, Prod.mk.injEq] at h
      obtain ⟨he, _⟩ := h
      have hes : es = [] := popMinBy_eq_none.mp hpm
      subst he; subst hes
      rcases List.mem_singleton.mp hx with rfl
      exact tripLe_refl _
    | some p =>
      obtain ⟨m, r⟩ := p
      rw [hpm] at h
      dsimp only at h
      by_cases hle : tripLe (k a) (k m)
      · rw [if_pos hle] at h
        simp only [Option.some.injEq, Prod.mk.injEq] at h
        obtain ⟨he, _⟩ := h
        subst he
        rcases List.mem_cons.mp hx with rfl | hxes
        · exact tripLe_refl _
        · exact tripLe_trans hle (ih hpm x hxes)
      · rw [if_neg hle] at h
        simp only [Option.some.injEq, Prod.mk.injEq] at h
        obtain ⟨he, _⟩ := h
        subst he
        rcases List.mem_cons.mp hx with hxa | hxes
        · subst hxa
          rcases tripLe_total (k m) (k x) with h' | h'
          · exact h'
          · exact absurd h' hle
        · exact ih hpm x hxes

/-! ## The scheduler (`SimLogEnvironment` / simpy `Environment`)

`Environment.schedule(event, priority, delay)` pushes
`(self._now + delay, priority, next(self._eid), event)`; `self._eid` is a
strictly increasing counter.  `SimLogEnvironment.step` reads the head
(the minimum) of the heap, lets the manager attach callbacks and log, then
pops it and advances `self._now` to its fire time.  Delays in this program
are never negative (`SimLogTimeout.__init__` raises on `delay < 0`), so
delays are naturals here. -/

/-- An entry of the simpy event heap: its key `(time, prio, seq)` plus the
event's failure state as observed after its callbacks ran (`_ok` false and
`_defused` absent means `step` re-raises the failure). -/
structure QEntry where
  time : Nat
  prio : Nat
  seq : Nat
  ok : Bool := true
  defused : Bool := false
deriving DecidableEq, Repr

/-- The heap key of an entry, as ordered by Python tuple comparison. -/
def qKey (e : QEntry) : Nat × Nat × Nat := (e.time, e.prio, e.seq)

/-- Scheduler state: virtual clock `now` (`self._now`), next sequence id
`eid` (`self._eid`) and the pending queue (`self._queue`). -/
structure SimState where
  now : Nat
  eid : Nat
  queue : List QEntry
deriving DecidableEq, Repr

/-- A request to schedule one event: priority, nonnegative delay and the
failure state the event will have when fired. -/
structure SchedReq where
  prio : Nat
  delay : Nat
  ok : Bool := true
  defused : Bool := false
deriving DecidableEq, Repr

/-- `Environment.schedule`: push `(now + delay, priority, next(eid), event)`
and advance the sequence counter. -/
def schedule (s : SimState) (r : SchedReq) : SimState :=
  { now := s.now, eid := s.eid + 1,
    queue := ⟨s.now + r.delay, r.prio, s.eid, r.ok, r.defused⟩ :: s.queue }

/-- Schedule a batch of events in order (what an event's callbacks do while
it is being fired). -/
def scheduleAll (s : SimState) : List SchedReq → SimState
  | [] => s
  | r :: rs => scheduleAll (schedule s r) rs

/-- The pop-and-advance core of `SimLogEnvironment.step`: pop the minimal
entry of the heap and set `self._now` to its fire time. -/
def step (s : SimState) : Option (QEntry × SimState) :=
  match popMinBy qKey s.queue with
  | none => none
  | some (e, rest) => some (e, { now := e.time, eid := s.eid, queue := rest })

/-- The sequence of fired events of a run: each `step` fires the head of
the queue, then the fired event's callbacks schedule the next batch of
events.  The run is observed for `batches.length` steps. -/
def fireTrace (s : SimState) : List (List SchedReq) → List QEntry
  | [] => []
  | b :: bs =>
    match step s with
    | none => []
    | some (e, s') => e :: fireTrace (scheduleAll s' b) bs

/-- Invariant of every reachable scheduler state: queued events fire no
earlier than `now` (delays are nonnegative) and carry sequence numbers
below the counter, which are pairwise distinct. -/
def inv (s : SimState) : Prop :=
  (∀ e ∈ s.queue, s.now ≤ e.time ∧ e.seq < s.eid) ∧
    s.queue.Pairwise fun a b => a.seq ≠ b.seq

instance (s : SimState) : Decidable (inv s) := by
  unfold inv; exact inferInstance

/-- The ordering the spec promises of the fired sequence: virtual time is
non-decreasing, and among equal `(fire_time, priority)` the strictly
increasing sequence counter (= schedule order) decides. -/
def fireOrd (a b : QEntry) : Prop :=
  a.time ≤ b.time ∧ (a.time = b.time ∧ a.prio = b.prio → a.seq < b.seq)

theorem fireOrd_of_tripLt {a b : QEntry} (h : tripLt (qKey a) (qKey b)) : fireOrd a b := by
  simp only [tripLt, qKey, fireOrd] at *; omega

theorem inv_schedule {s : SimState} (h : inv s) (r : SchedReq) : inv (schedule s r) := by
  obtain ⟨h1, h2⟩ := h
  constructor
  · intro e he
    rcases List.mem_cons.mp he with rfl | he'
    · simp only [schedule]; omega
    · have := h1 e he'
      simp only [schedule] at *; omega
  · refine List.Pairwise.cons ?_ h2
    intro b hb
    have := (h1 b hb).2
    simp only [schedule]
    omega

theorem inv_scheduleAll {s : SimState} (h : inv s) :
    ∀ rs : List SchedReq, inv (scheduleAll s rs) := by
  intro rs
  induction rs generalizing s with
  | nil => exact h
  | cons r rs ih => exact ih (inv_schedule h r)

theorem tripLe_time {a b : QEntry} (h : tripLe (qKey a) (qKey b)) : a.time ≤ b.time := by
  simp only [tripLe, qKey] at h; omega

/-- Characterisation of a successful `step`. -/
theorem step_eq_some {s : SimState} {e : QEntry} {s' : SimState} :
    step s = some (e, s') ↔
      ∃ rest, popMinBy qKey s.queue = some (e, rest) ∧
        s' = { now := e.time, eid := s.eid, queue := rest } := by
  unfold step
  cases hpm : popMinBy qKey s.queue with
  | none => simp
  | some p =>
    obtain ⟨g, rest⟩ := p
    constructor
    · intro h
      rw [Option.some_inj, Prod.ext_iff] at h
      obtain ⟨h1, h2⟩ := h
      subst h1
      exact ⟨rest, rfl, h2.symm⟩
    · rintro ⟨r', hr', rfl⟩
      rw [Option.some_inj, Prod.ext_iff] at hr'
      obtain ⟨h1, h2⟩ := hr'
      subst h1
      subst h2
      rfl

theorem seqNe_symmetric : Symmetric fun a b : QEntry => a.seq ≠ b.seq :=
  fun _ _ h => Ne.symm h

theorem inv_step {s : SimState} {e : QEntry} {s' : SimState}
    (h : inv s) (hstep : step s = some (e, s')) : inv s' := by
  obtain ⟨h1, h2⟩ := h
  obtain ⟨rest, hpm, rfl⟩ := step_eq_some.mp hstep
  have hperm := popMinBy_perm hpm
  constructor
  · intro x hx
    have hxq : x ∈ s.queue := hperm.symm.mem_iff.mp (List.mem_cons_of_mem _ hx)
    exact ⟨tripLe_time (popMinBy_le hpm x hxq), (h1 x hxq).2⟩
  · have hpw : (e :: rest).Pairwise fun a b => a.seq ≠ b.seq :=
      (hperm.pairwise_iff (fun h => Ne.symm h)).mp h2
    exact hpw.of_cons

/-- The fired head of a `step` from an invariant state: its key is `tripLe`
all remaining entries and its sequence differs from theirs. -/
theorem step_head_min {s : SimState} {e : QEntry} {s' : SimState}
    (h : inv s) (hstep : step s = some (e, s')) :
    e.time ≤ s'.now ∧ e.seq < s'.eid ∧
      ∀ x ∈ s'.queue, tripLe (qKey e) (qKey x) ∧ e.seq ≠ x.seq := by
  obtain ⟨h1, h2⟩ := h
  obtain ⟨rest, hpm, rfl⟩ := step_eq_some.mp hstep
  have hperm := popMinBy_perm hpm
  have hpw : (e :: rest).Pairwise fun a b => a.seq ≠ b.seq :=
    (hperm.pairwise_iff (fun h => Ne.symm h)).mp h2
  refine ⟨le_refl _, (h1 e (popMinBy_mem hpm)).2, ?_⟩
  intro x hx
  have hxq : x ∈ s.queue := hperm.symm.mem_iff.mp (List.mem_cons_of_mem _ hx)
  exact ⟨popMinBy_le hpm x hxq, List.rel_of_pairwise_cons hpw hx⟩

/-- `e` has already fired: its time is at most the clock, its sequence is
below the counter, and it is `fireOrd`-below everything still queued. -/
def dominates (e : QEntry) (s : SimState) : Prop :=
  e.time ≤ s.now ∧ e.seq < s.eid ∧ ∀ x ∈ s.queue, fireOrd e x

theorem dominates_schedule {e : QEntry} {s : SimState} (h : dominates e s) (r : SchedReq) :
    dominates e (schedule s r) := by
  obtain ⟨ht, hs, hq⟩ := h
  refine ⟨ht, by simp only [schedule]; omega, ?_⟩
  intro x hx
  rcases List.mem_cons.mp hx with rfl | hx'
  · unfold fireOrd
    refine ⟨?_, fun _ => ?_⟩
    · show e.time ≤ s.now + r.delay
      omega
    · show e.seq < s.eid
      omega
  · exact hq x hx'

theorem dominates_scheduleAll {e : QEntry} {s : SimState} (h : dominates e s) :
    ∀ rs : List SchedReq, dominates e (scheduleAll s rs) := by
  intro rs
  induction rs generalizing s with
  | nil => exact h
  | cons r rs ih => exact ih (dominates_schedule h r)

theorem dominates_step {e f : QEntry} {s s' : SimState}
    (h : dominates e s) (hstep : step s = some (f, s')) : dominates e s' := by
  obtain ⟨ht, hs, hq⟩ := h
  obtain ⟨rest, hpm, rfl⟩ := step_eq_some.mp hstep
  have hperm := popMinBy_perm hpm
  refine ⟨(hq f (popMinBy_mem hpm)).1, hs, ?_⟩
  intro x hx
  exact hq x (hperm.symm.mem_iff.mp (List.mem_cons_of_mem _ hx))

theorem dominates_fireTrace {e : QEntry} :
    ∀ (bs : List (List SchedReq)) (s : SimState), dominates e s →
      ∀ x ∈ fireTrace s bs, fireOrd e x := by
  intro bs
  induction bs with
  | nil => intro s _ x hx; simp [fireTrace] at hx
  | cons b bs ih =>
    intro s hd x hx
    unfold fireTrace at hx
    cases hstep : step s with
    | none => rw [hstep] at hx; simp at hx
    | some p =>
      obtain ⟨f, s'⟩ := p
      rw [hstep] at hx
      rcases List.mem_cons.mp hx with hxf | hx'
      · subst hxf
        obtain ⟨rest, hpm, rfl⟩ := step_eq_some.mp hstep
        exact hd.2.2 _ (popMinBy_mem hpm)
      · exact ih (scheduleAll s' b) (dominates_scheduleAll (dominates_step hd hstep) b) x hx'

/-- `e` has fired and, with no further scheduling, is strictly below every
queued entry in the lexicographic key order. -/
def strictDom (e : QEntry) (s : SimState) : Prop :=
  ∀ x ∈ s.queue, tripLt (qKey e) (qKey x)

theorem strictDom_step {e f : QEntry} {s s' : SimState}
    (h : strictDom e s) (hstep : step s = some (f, s')) : strictDom e s' := by
  obtain ⟨rest, hpm, rfl⟩ := step_eq_some.mp hstep
  have hperm := popMinBy_perm hpm
  intro x hx
  exact h x (hperm.symm.mem_iff.mp (List.mem_cons_of_mem _ hx))

theorem strictDom_fireTrace {e : QEntry} :
    ∀ (bs : List (List SchedReq)) (s : SimState), (∀ b ∈ bs, b = []) → strictDom e s →
      ∀ x ∈ fireTrace s bs, tripLt (qKey e) (qKey x) := by
  intro bs
  induction bs with
  | nil => intro s _ _ x hx; simp [fireTrace] at hx
  | cons b bs ih =>
    intro s hnil hd x hx
    have hb : b = [] := hnil b (List.mem_cons_self _ _)
    unfold fireTrace at hx
    cases hstep : step s with
    | none => rw [hstep] at hx; simp at hx
    | some p =>
      obtain ⟨f, s'⟩ := p
      rw [hstep] at hx
      rcases List.mem_cons.mp hx with hxf | hx'
      · subst hxf
        obtain ⟨rest, hpm, rfl⟩ := step_eq_some.mp hstep
        exact hd _ (popMinBy_mem hpm)
      · subst hb
        exact ih s' (fun c hc => hnil c (List.mem_cons_of_mem _ hc))
          (strictDom_step hd hstep) x hx'

/-- C1.  Every run of the scheduler fires its events in non-decreasing
virtual-time order, and events with equal fire time and equal priority fire
in strictly increasing sequence (= schedule) order; moreover, for a fully
pre-scheduled run (no callback schedules anything new) the fired sequence
is strictly sorted by the lexicographic `(fire_time, priority, sequence)`
key, the deterministic total order of the heap. -/
theorem scheduler_fires_in_key_order (s : SimState) (bs : List (List SchedReq))
    (h : inv s) :
    (fireTrace s bs).Pairwise fireOrd ∧
      ((∀ b ∈ bs, b = []) →
        (fireTrace s bs).Pairwise fun a b => tripLt (qKey a) (qKey b)) := by
  induction bs generalizing s with
  | nil => simp [fireTrace]
  | cons b bs ih =>
    constructor
    · unfold fireTrace
      cases hstep : step s with
      | none => simp
      | some p =>
        obtain ⟨f, s'⟩ := p
        have hmin := step_head_min h hstep
        have hinv' : inv (scheduleAll s' b) := inv_scheduleAll (inv_step h hstep) b
        refine List.Pairwise.cons ?_ (ih _ hinv').1
        intro x hx
        have hdom : dominates f (scheduleAll s' b) := by
          refine dominates_scheduleAll ⟨hmin.1, hmin.2.1, ?_⟩ b
          intro y hy
          exact fireOrd_of_tripLt
            (tripLt_of_tripLe_of_ne_seq (hmin.2.2 y hy).1 (hmin.2.2 y hy).2)
        exact dominates_fireTrace bs _ hdom x hx
    · intro hnil
      unfold fireTrace
      cases hstep : step s with
      | none => simp
      | some p =>
        obtain ⟨f, s'⟩ := p
        have hb : b = [] := hnil b (List.mem_cons_self _ _)
        have hmin := step_head_min h hstep
        have hinv' : inv (scheduleAll s' b) := inv_scheduleAll (inv_step h hstep) b
        refine List.Pairwise.cons ?_ ((ih _ hinv').2
          (fun c hc => hnil c (List.mem_cons_of_mem _ hc)))
        intro x hx
        have hsd : strictDom f s' := by
          intro y hy
          exact tripLt_of_tripLe_of_ne_seq (hmin.2.2 y hy).1 (hmin.2.2 y hy).2
        subst hb
        exact strictDom_fireTrace bs s'
          (fun c hc => hnil c (List.mem_cons_of_mem _ hc)) hsd x hx

/-! ## Python-level error values

`dict[key]` raises `KeyError`, attribute access on an object lacking the
attribute raises `AttributeError`, `SimLogTimeout.__init__` raises
`ValueError` on negative delay, and `step` re-raises an event's failure. -/

inductive PyErr where
  | keyError
  | attributeError
  | valueError
  | unhandledFailure
deriving DecidableEq, Repr

/-! ## The failure check of `SimLogEnvironment.step` and the run loop

After firing an event's callbacks, `step` raises if `event._ok` is false
and the event has no `_defused` attribute; the exception propagates out of
simpy's `run` loop, which otherwise keeps stepping and treats an empty
queue as normal termination. -/

/-- `SimLogEnvironment.step` including the failure check: pop the minimal
event; after its callbacks ran, a failed, undefused event raises. `.ok none`
is the empty-queue case (`EmptySchedule`). -/
def stepCheck (s : SimState) : Except PyErr (Option (QEntry × SimState)) :=
  match popMinBy qKey s.queue with
  | none => .ok none
  | some (e, rest) =>
    if !e.ok && !e.defused then .error .unhandledFailure
    else .ok (some (e, { now := e.time, eid := s.eid, queue := rest }))

/-- simpy's `run` loop over `stepCheck` (fuel-bounded): fires events until
the queue is empty or a failed, undefused event aborts the run.  Returns
the fired events and the propagated error, if any; the event whose failure
aborted the run still fired (its callbacks ran before the check). -/
def runLoop : Nat → SimState → List QEntry × Option PyErr
  | 0, _ => ([], none)
  | n + 1, s =>
    match popMinBy qKey s.queue with
    | none => ([], none)
    | some (e, rest) =>
      if !e.ok && !e.defused then ([e], some .unhandledFailure)
      else
        let p := runLoop n { now := e.time, eid := s.eid, queue := rest }
        (e :: p.1, p.2)

/-! ## Event topics and components

`EventTopic` is an `Enum` whose members carry an `EventTopicValue`
(a string `value` and a human `description`); a member is identified here
with that pair.  A component (`BaseComponent`) has a uuid, a display name
and declared subscriptions (uuids are modelled as naturals). -/

structure EventTopic where
  value : String
  description : String
deriving DecidableEq, Repr

/-- The built-in `EventTopic.STATE_CHANGE` member. -/
def stateChangeTopic : EventTopic :=
  { value := "STATE_CHANGE", description := "Used by all components" }

/-- The dispatch-relevant face of a registered `BaseComponent`. -/
structure Component where
  uuid : Nat
  name : String
  subscriptions : List EventTopic
deriving DecidableEq, Repr

/-- `ComponentManager`: it keeps the (optional) component list; the
`components` setter derives the uuid and subscription lookups from it. -/
structure Manager where
  components : Option (List Component)
deriving DecidableEq, Repr

/-- The `_component_lookup` dict built by the `components` setter: uuid to
component, later registrations overwriting earlier ones with the same id. -/
def component_lookup (cs : List Component) (u : Nat) : Option Component :=
  cs.reverse.find? fun c => c.uuid == u

/-- The `_subscriptions_lookup` defaultdict built by the `components`
setter: for each component in registration order, one `listen` callback per
occurrence of the topic in its subscription list.  Callbacks are identified
by the owning component's uuid. -/
def subscriptions_lookup (cs : List Component) (t : EventTopic) : List Nat :=
  cs.flatMap fun c => (c.subscriptions.filter fun t' => t' == t).map fun _ => c.uuid

/-- `ComponentManager.get_component_name_by_uuid`. -/
def get_component_name_by_uuid (m : Manager) (u : Nat) : Option String :=
  (component_lookup (m.components.getD []) u).map fun c => c.name

/-- Python truthiness of `self.components` (`None` and `[]` are falsy). -/
def pyTruthyComponents : Option (List Component) → Bool
  | none => false
  | some cs => !cs.isEmpty

/-! ## The event model (`events/events.py`)

The Python classes, with their inheritance:
`BaseSimLogEvent < simpy.Event`; `SimLogTimeout < BaseSimLogEvent`;
`SimLogTargetedTimeout < SimLogTimeout`; `SimLogSingleRefEvent`,
`SimLogUuidRefEvent`, `SimLogInitialize < BaseSimLogEvent`;
`SimLogProcess < simpy.Process` (not a `BaseSimLogEvent`).  Raw simpy
`Initialize`, `Timeout` and other plain events are separate classes. -/

inductive EvClass where
  | rawEvent
  | rawInit
  | rawTimeout
  | baseSimLog
  | simLogTimeout
  | simLogTargetedTimeout
  | simLogSingleRef
  | simLogUuidRef
  | simLogProcess
  | simLogInit
deriving DecidableEq, Repr

/-- `isinstance(e, SimLogProcess)`. -/
def isSimLogProcess : EvClass → Bool
  | .simLogProcess => true
  | _ => false

/-- `isinstance(e, SimLogTargetedTimeout)`. -/
def isSimLogTargetedTimeout : EvClass → Bool
  | .simLogTargetedTimeout => true
  | _ => false

/-- `isinstance(e, SimLogUuidRefEvent)`. -/
def isSimLogUuidRef : EvClass → Bool
  | .simLogUuidRef => true
  | _ => false

/-- `isinstance(e, SimLogSingleRefEvent)`. -/
def isSimLogSingleRef : EvClass → Bool
  | .simLogSingleRef => true
  | _ => false

/-- `isinstance(e, SimLogTimeout)` (true of `SimLogTargetedTimeout` too). -/
def isSimLogTimeout : EvClass → Bool
  | .simLogTimeout => true
  | .simLogTargetedTimeout => true
  | _ => false

/-- `isinstance(e, SimLogInitialize)`. -/
def isSimLogInit : EvClass → Bool
  | .simLogInit => true
  | _ => false

/-- `isinstance(e, BaseSimLogEvent)`: every SimLog event class except
`SimLogProcess` derives from it. -/
def isBaseSimLogEvent : EvClass → Bool
  | .baseSimLog => true
  | .simLogTimeout => true
  | .simLogTargetedTimeout => true
  | .simLogSingleRef => true
  | .simLogUuidRef => true
  | .simLogInit => true
  | _ => false

/-- `isinstance(e, simpy.events.Initialize)`. -/
def isRawInit : EvClass → Bool
  | .rawInit => true
  | _ => false

/-- `isinstance(e, simpy.events.Timeout)`. -/
def isRawTimeout : EvClass → Bool
  | .rawTimeout => true
  | _ => false

/-- What an event's `single_reference` attribute holds: a component uuid
(`SimLogUuidRefEvent`, `SimLogTargetedTimeout`, `SimLogProcess`) or a direct
component object (`SimLogSingleRefEvent`). -/
inductive SRef where
  | suuid (u : Nat)
  | sobj (c : Component)
deriving DecidableEq, Repr

/-- What an event's `parent` attribute holds: a uuid, a plain string, or a
component object. -/
inductive PyParent where
  | puuid (u : Nat)
  | pstr (s : String)
  | pcomp (name : String)
deriving DecidableEq, Repr

/-- An event's `_value` as the logger sees it. -/
inductive PyVal where
  | vnone
  | vplain (s : String)
  | vcomp (name : String)
  | vuuid (u : Nat)
  | vinterrupt (cause : String)
deriving DecidableEq, Repr

/-- A SimLog event as the manager observes it at fire time: its concrete
class and the attributes `trigger_event` and `log_event` read.
`component_state` is `None` or the plain string `update_state` stored. -/
structure SEvent where
  cls : EvClass
  topic : Option EventTopic
  parent : Option PyParent
  single_reference : Option SRef
  component_state : Option String
  value : PyVal
deriving DecidableEq, Repr

/-- `self._component_lookup[key]`: a `dict` lookup that raises `KeyError`
when the key (`None`, an unregistered uuid, or a non-uuid object) is not a
registered component id. -/
def lookupKey (sr : Option SRef) (cs : List Component) : Except PyErr Component :=
  match sr with
  | some (.suuid u) =>
    match component_lookup cs u with
    | some c => .ok c
    | none => .error .keyError
  | _ => .error .keyError

/-- `ComponentManager.trigger_event`, the resolution hook `step` invokes at
fire time.  Returns the listener callbacks appended to the event, as the
uuids of the components whose `listen` was attached. -/
def trigger_event (m : Manager) (e : SEvent) : Except PyErr (List Nat) :=
  if !pyTruthyComponents m.components then .ok []
  else
    let cs := m.components.getD []
    if isSimLogProcess e.cls then
      match e.single_reference with
      | some sr => (lookupKey (some sr) cs).map fun c => [c.uuid]
      | none =>
        match e.topic with
        | none => .ok []
        | some t => .ok (subscriptions_lookup cs t)
    else if isSimLogTargetedTimeout e.cls || isSimLogUuidRef e.cls then
      (lookupKey e.single_reference cs).map fun c => [c.uuid]
    else if isSimLogSingleRef e.cls then
      match e.single_reference with
      | some (.sobj c) => .ok [c.uuid]
      | _ => .error .attributeError
    else if isSimLogTimeout e.cls || isSimLogInit e.cls || isBaseSimLogEvent e.cls then
      match e.topic with
      | none => .ok []
      | some t => .ok (subscriptions_lookup cs t)
    else .ok []

/-! ## The event logger (`ComponentManager.log_event`)

Called by `step` on the queue head `(time, priority, eid, event)` when
`event_logging` is enabled.  It appends a `LoggedEvent` record — or returns
without appending for raw simpy `Initialize`/`Timeout` primitives and for
events whose topic resolves to `None` — or raises, since reading
`_event.component_state.value` on the plain string stored by
`update_state` is an `AttributeError`. -/

/-- A record's `value` field after `log_event`'s conversions. -/
inductive LogVal where
  | lvNone
  | lvStr (s : String)
  | lvInterrupt (cause : String)
deriving DecidableEq, Repr

/-- A `LoggedEvent` (`data_models/event_log.py`) as appended to
`ComponentManager.event_log`. -/
structure LoggedEventRec where
  topic : String
  parent : Option String
  single_reference : Option String
  sim_time : Nat
  value : LogVal
  simpy_id : Nat
  simpy_priority : Nat
  component_state : Option String
deriving DecidableEq, Repr

/-- The `parent` label resolution of `log_event`: a uuid is resolved
through the registry (possibly to `None`), a non-empty string is kept, a
component contributes its name; an empty string is falsy and yields
`None`. -/
def resolveParent (m : Manager) : Option PyParent → Option String
  | some (.puuid u) => get_component_name_by_uuid m u
  | some (.pstr s) => if s = "" then none else some s
  | some (.pcomp n) => some n
  | none => none

/-- The `single_reference` label resolution of `log_event`.  Only
`SimLogSingleRefEvent` and `SimLogUuidRefEvent` have a resolving branch;
in particular a `SimLogTargetedTimeout` record keeps `None` here. -/
def resolveSingleRef (m : Manager) (e : SEvent) : Option String :=
  if isSimLogSingleRef e.cls then
    match e.single_reference with
    | some (.suuid u) => get_component_name_by_uuid m u
    | some (.sobj c) => some c.name
    | none => none
  else if isSimLogUuidRef e.cls then
    match e.single_reference with
    | some (.suuid u) => get_component_name_by_uuid m u
    | _ => none
  else none

/-- The `value` conversion of `log_event`: components become their name,
uuids are resolved to a name (or `None`), interrupts become their cause. -/
def logValue (m : Manager) : PyVal → LogVal
  | .vnone => .lvNone
  | .vplain s => .lvStr s
  | .vcomp n => .lvStr n
  | .vuuid u =>
    match get_component_name_by_uuid m u with
    | some n => .lvStr n
    | none => .lvNone
  | .vinterrupt c => .lvInterrupt c

/-- Python truthiness of the `component_state` attribute (a `str` or
`None`; the empty string is falsy). -/
def pyTruthyStateStr : Option String → Bool
  | none => false
  | some s => !(s = "")

/-- `ComponentManager.log_event` on the queue head `(time, prio, eid,
event)`.  `.ok none` models returning without appending a record;
`.ok (some r)` models appending `r`; `.error` models raising.  The
`component_state` field of a produced record is always `None`: the only
assignment to it reads `.value` off the stored plain string, which raises
`AttributeError` first. -/
def log_event (m : Manager) (time prio eid : Nat) (e : SEvent) :
    Except PyErr (Option LoggedEventRec) :=
  if isRawInit e.cls || isRawTimeout e.cls then .ok none
  else
    let inFamily :=
      isBaseSimLogEvent e.cls || isSimLogSingleRef e.cls ||
        isSimLogProcess e.cls || isSimLogInit e.cls
    let topic : Option EventTopic := if inFamily then e.topic else none
    let parent : Option String := if inFamily then resolveParent m e.parent else none
    if inFamily && isBaseSimLogEvent e.cls && pyTruthyStateStr e.component_state then
      .error .attributeError
    else
      match topic with
      | none => .ok none
      | some t =>
        .ok (some
          { topic := t.value
            parent := parent
            single_reference := resolveSingleRef m e
            sim_time := time
            value := logValue m e.value
            simpy_id := eid
            simpy_priority := prio
            component_state := none })

/-! ## The component abstraction (`engine/base.py`)

`BaseComponent.update_state(new_state, location)` compares `new_state is
self.state` (object identity, not string equality), and on a difference
stores the new state, builds a STATE_CHANGE `BaseSimLogEvent` carrying the
plain state string in `component_state`, and succeeds it with the resolved
location as value.  It never touches `last_time_state_updated`, which is
assigned only in `__init__` (to `env.now` at construction time). -/

/-- A Python `str` object: its object id (`id(s)`, deciding `is`) and its
contents (deciding `==`). -/
structure PyStr where
  oid : Nat
  val : String
deriving DecidableEq, Repr

/-- Python `new_state is self.state` for `new_state : str` against the
current state (`None` before the first update). -/
def pyIs (new : PyStr) : Option PyStr → Bool
  | some s => new.oid == s.oid
  | none => false

/-- The mutable face of a `BaseComponent`. -/
structure BaseComponentState where
  uuid : Nat
  name : String
  state : Option PyStr
  last_time_state_updated : Nat
deriving DecidableEq, Repr

/-- `BaseComponent.__init__`: state starts as `None` and
`last_time_state_updated` is stamped with `env.now` at construction. -/
def mkBaseComponent (now u : Nat) (name : String) : BaseComponentState :=
  { uuid := u, name := name, state := none, last_time_state_updated := now }

/-- The `location` argument of `update_state`: a uuid or a string. -/
inductive Location where
  | luuid (u : Nat)
  | lstr (s : String)
deriving DecidableEq, Repr

/-- The location resolution at the top of `update_state`: a uuid location
is resolved through `env.manager`, a string is kept. -/
def resolveLocation (m : Manager) : Option Location → Option String
  | some (.luuid u) => get_component_name_by_uuid m u
  | some (.lstr s) => some s
  | none => none

/-- The resolved location as the succeeded event's value. -/
def locValue : Option String → PyVal
  | some v => .vplain v
  | none => .vnone

/-- `BaseComponent.update_state`.  `now` is `env.now` at the moment of the
call (the function never reads it) and `m` is `env.manager` (used only to
resolve a uuid location).  Returns the component afterwards and the
emitted STATE_CHANGE event, if any.  The emitted event's `component_state`
holds the plain state string `self.state`. -/
def update_state (m : Manager) (now : Nat) (c : BaseComponentState)
    (new_state : PyStr) (location : Option Location) :
    BaseComponentState × Option SEvent :=
  if pyIs new_state c.state then (c, none)
  else
    ({ c with state := some new_state },
      some
        { cls := .baseSimLog
          topic := some stateChangeTopic
          parent := some (.puuid c.uuid)
          single_reference := none
          component_state := some new_state.val
          value := locValue (resolveLocation m location) })

theorem update_state_of_pyIs (m : Manager) (now : Nat) (c : BaseComponentState)
    (new : PyStr) (loc : Option Location) (h : pyIs new c.state = true) :
    update_state m now c new loc = (c, none) := by
  unfold update_state
  rw [h]
  rfl

theorem update_state_fst_of_not_pyIs (m : Manager) (now : Nat) (c : BaseComponentState)
    (new : PyStr) (loc : Option Location) (h : pyIs new c.state = false) :
    (update_state m now c new loc).1 = { c with state := some new } := by
  unfold update_state
  rw [h]
  rfl

theorem update_state_snd_of_not_pyIs (m : Manager) (now : Nat) (c : BaseComponentState)
    (new : PyStr) (loc : Option Location) (h : pyIs new c.state = false) :
    (update_state m now c new loc).2 =
      some
        { cls := .baseSimLog
          topic := some stateChangeTopic
          parent := some (.puuid c.uuid)
          single_reference := none
          component_state := some new.val
          value := locValue (resolveLocation m loc) } := by
  unfold update_state
  rw [h]
  rfl

/-! ## `BaseComponent.create_event`

The decision table of the docstring, implemented with Python truthiness:
`if not (target or timeout)`, `if not timeout`, `if timeout and not
target`, `if timeout and target`.  A `UUID` is always truthy; an `int` is
falsy exactly when it is `0`.  The timeout constructors raise `ValueError`
on a negative delay. -/

/-- The variant `create_event` produces. -/
inductive CreatedEvent where
  | immediate
  | uuidTargeted
  | timeoutEvent
  | targetedTimeout
deriving DecidableEq, Repr

/-- Python truthiness of `target : UUID | None`. -/
def pyTruthyUuid : Option Nat → Bool
  | none => false
  | some _ => true

/-- Python truthiness of `timeout : int | None` (`0` is falsy). -/
def pyTruthyInt : Option Int → Bool
  | none => false
  | some n => !(n = 0)

/-- `BaseComponent.create_event(topic, target, cause, value, timeout)`,
reduced to the selected variant (the topic is required and carried
unchanged; `cause` and `value` do not influence the selection). -/
def create_event (_topic : EventTopic) (target : Option Nat) (timeout : Option Int) :
    Except PyErr CreatedEvent :=
  if !(pyTruthyUuid target || pyTruthyInt timeout) then .ok .immediate
  else if !pyTruthyInt timeout then .ok .uuidTargeted
  else if pyTruthyInt timeout && !pyTruthyUuid target then
    if timeout.getD 0 < 0 then .error .valueError else .ok .timeoutEvent
  else if pyTruthyInt timeout && pyTruthyUuid target then
    if timeout.getD 0 < 0 then .error .valueError else .ok .targetedTimeout
  else .error .valueError

/-! ## Scheduling plus dispatch (`step` + `trigger_event`)

`Environment.schedule` stores only `(time, priority, sequence, event)` —
no recipients.  `SimLogEnvironment.step` resolves recipients by calling
`self.manager.trigger_event` on the queue head at fire time, against the
manager's current component attachment. -/

/-- A heap entry carrying its event. -/
structure DEntry where
  time : Nat
  prio : Nat
  seq : Nat
  ev : SEvent
deriving DecidableEq, Repr

/-- Key of a dispatch heap entry. -/
def dKey (e : DEntry) : Nat × Nat × Nat := (e.time, e.prio, e.seq)

/-- Environment state as dispatch sees it: clock, sequence counter, queue
and the manager. -/
structure PubSubState where
  now : Nat
  eid : Nat
  queue : List DEntry
  manager : Manager
deriving DecidableEq, Repr

/-- Re-running the `components` setter (`manager.components = cs`):
replaces the attachment and rebuilds both lookups; the queue is
untouched. -/
def attachComponents (s : PubSubState) (cs : List Component) : PubSubState :=
  { s with manager := { components := some cs } }

/-- `Environment.schedule` for an event: pushes
`(now + delay, priority, next(eid), event)`; no recipient is recorded. -/
def scheduleEvent (s : PubSubState) (ev : SEvent) (prio delay : Nat) : PubSubState :=
  { now := s.now, manager := s.manager, eid := s.eid + 1,
    queue := ⟨s.now + delay, prio, s.eid, ev⟩ :: s.queue }

/-- The dispatch part of `SimLogEnvironment.step`: take the queue head
(the minimum), resolve its recipients with `trigger_event` against the
manager's current attachment, pop it and advance the clock. -/
def stepDispatch (s : PubSubState) :
    Option (Except PyErr (List Nat) × DEntry × PubSubState) :=
  match popMinBy dKey s.queue with
  | none => none
  | some (e, rest) =>
    some (trigger_event s.manager e.ev, e,
      { now := e.time, eid := s.eid, queue := rest, manager := s.manager })

/-! ## The claims -/

/-- Witness for C1: a concrete invariant start state, with one mid-run
scheduling, on which the ordering theorem applies. -/
theorem scheduler_fires_in_key_order_witness :
    inv { now := 0, eid := 3,
          queue := [⟨2, 1, 0, true, false⟩, ⟨1, 1, 1, true, false⟩, ⟨1, 0, 2, true, false⟩] } ∧
      ((fireTrace
          { now := 0, eid := 3,
              queue := [⟨2, 1, 0, true, false⟩, ⟨1, 1, 1, true, false⟩, ⟨1, 0, 2, true, false⟩] }
          [[], [⟨0, 0, true, false⟩], []]).Pairwise fireOrd ∧
        ((∀ b ∈ ([[], [⟨0, 0, true, false⟩], []] : List (List SchedReq)), b = []) →
          (fireTrace
            { now := 0, eid := 3,
                queue := [⟨2, 1, 0, true, false⟩, ⟨1, 1, 1, true, false⟩, ⟨1, 0, 2, true, false⟩] }
            [[], [⟨0, 0, true, false⟩], []]).Pairwise fun a b => tripLt (qKey a) (qKey b))) :=
  ⟨by decide, scheduler_fires_in_key_order _ _ (by decide)⟩

/-- C5.  If the event fired by `step` has its failure flag set (`_ok`
false) and has not been defused, `step` raises the propagated failure, and
the run loop halts at that event: it is the last event fired and the error
is reported. -/
theorem failed_undefused_event_aborts_run (s : SimState) (n : Nat) (e : QEntry)
    (rest : List QEntry) (hpop : popMinBy qKey s.queue = some (e, rest))
    (hok : e.ok = false) (hdef : e.defused = false) :
    stepCheck s = .error .unhandledFailure ∧
      runLoop (n + 1) s = ([e], some .unhandledFailure) := by
  constructor
  · unfold stepCheck
    rw [hpop]
    simp [hok, hdef]
  · unfold runLoop
    rw [hpop]
    simp [hok, hdef]

/-- Witness for C5: a concrete queue whose head is failed and undefused. -/
theorem failed_undefused_event_aborts_run_witness :
    popMinBy qKey ([⟨3, 1, 0, false, false⟩] : List QEntry) =
        some (⟨3, 1, 0, false, false⟩, []) ∧
      (stepCheck { now := 0, eid := 1, queue := [⟨3, 1, 0, false, false⟩] } =
          .error .unhandledFailure ∧
        runLoop 4 { now := 0, eid := 1, queue := [⟨3, 1, 0, false, false⟩] } =
          ([⟨3, 1, 0, false, false⟩], some .unhandledFailure)) :=
  ⟨by decide,
    failed_undefused_event_aborts_run _ 3 ⟨3, 1, 0, false, false⟩ [] (by decide) rfl rfl⟩

/-- C9.  When the manager's component list is `None` or empty,
`trigger_event` returns immediately and attaches no callbacks, whatever
the event — in particular no `KeyError` is raised for a single-targeted
event with an unknown target id. -/
theorem empty_manager_trigger_noop (m : Manager) (e : SEvent)
    (h : m.components = none ∨ m.components = some []) :
    trigger_event m e = .ok [] := by
  have hf : pyTruthyComponents m.components = false := by
    rcases h with h | h <;> rw [h] <;> rfl
  unfold trigger_event
  rw [hf]
  rfl

/-- Witness for C9: an unset manager and a targeted event whose target id
is registered nowhere. -/
theorem empty_manager_trigger_noop_witness :
    ((⟨none⟩ : Manager).components = none ∨ (⟨none⟩ : Manager).components = some []) ∧
      trigger_event ⟨none⟩
        ⟨.simLogTargetedTimeout, some stateChangeTopic, none, some (.suuid 5), none, .vnone⟩ =
        .ok [] :=
  ⟨Or.inl rfl, empty_manager_trigger_noop _ _ (Or.inl rfl)⟩

/-- C6 counterexample: a `SimLogUuidRefEvent` targeting the unregistered
id `5` resolves with no error and no recipients when the manager's
component list is unset — the `if not self.components: return` guard runs
before any lookup, so the claim's universal "fails with a fatal lookup
error" is false. -/
theorem unknown_target_empty_manager_silent :
    trigger_event ⟨none⟩
      ⟨.simLogUuidRef, some stateChangeTopic, none, some (.suuid 5), none, .vnone⟩ =
      .ok [] := by rfl

/-- C6 as amended: provided the manager's component list is non-empty,
resolving a single-targeted event (`SimLogTargetedTimeout` or
`SimLogUuidRefEvent`) whose target id is not a registered component id
raises `KeyError` at fire time — it is not silently skipped. -/
theorem unknown_target_lookup_raises (m : Manager) (cs : List Component) (e : SEvent)
    (u : Nat) (hcs : m.components = some cs) (hne : cs ≠ [])
    (hcls : e.cls = .simLogTargetedTimeout ∨ e.cls = .simLogUuidRef)
    (hsr : e.single_reference = some (.suuid u))
    (hlk : component_lookup cs u = none) :
    trigger_event m e = .error .keyError := by
  have hf : pyTruthyComponents m.components = true := by
    rw [hcs]
    simp [pyTruthyComponents, hne]
  unfold trigger_event
  rw [hf]
  rcases hcls with h | h <;>
    simp [h, hcs, isSimLogProcess, isSimLogTargetedTimeout, isSimLogUuidRef,
      lookupKey, hsr, hlk, Except.map]

/-- Witness for C6 as amended: one registered component, a targeted event
aimed at the absent id `5`. -/
theorem unknown_target_lookup_raises_witness :
    ((⟨some [⟨1, "A", []⟩]⟩ : Manager).components = some [⟨1, "A", []⟩] ∧
        ([⟨1, "A", []⟩] : List Component) ≠ [] ∧
        component_lookup [⟨1, "A", []⟩] 5 = none) ∧
      trigger_event ⟨some [⟨1, "A", []⟩]⟩
        ⟨.simLogTargetedTimeout, some stateChangeTopic, none, some (.suuid 5), none, .vnone⟩ =
        .error .keyError :=
  ⟨⟨rfl, by decide, by rfl⟩,
    unknown_target_lookup_raises _ _ _ 5 rfl (by decide) (Or.inl rfl) rfl (by rfl)⟩

/-- C2.  Recipient resolution for a scheduled event happens at fire time:
whenever the component set is re-attached (the `components` setter re-run)
after an event was scheduled and before the step that fires it, the
delivered callbacks are computed by `trigger_event` against the new
attachment — the attachment in force at schedule time does not occur in
the result (the queue stores no recipients).  Concretely: a broadcast
event on topic `X` scheduled while a component subscribing to `X` was
attached delivers to nobody once the component is re-attached without the
subscription, and to that component if no re-attachment happens. -/
theorem broadcast_resolution_at_fire_time :
    (∀ (s : PubSubState) (cs : List Component) (e : DEntry) (rest : List DEntry),
        popMinBy dKey s.queue = some (e, rest) →
        stepDispatch (attachComponents s cs) =
          some (trigger_event { components := some cs } e.ev, e,
            { now := e.time, eid := s.eid, queue := rest,
              manager := { components := some cs } })) ∧
      ((stepDispatch
          (attachComponents
            (scheduleEvent ⟨0, 0, [], ⟨some [⟨7, "C", [⟨"X", "topic X"⟩]⟩]⟩⟩
              ⟨.baseSimLog, some ⟨"X", "topic X"⟩, none, none, none, .vnone⟩ 1 5)
            [⟨7, "C", []⟩])).map fun p => p.1) = some (.ok []) ∧
      ((stepDispatch
          (scheduleEvent ⟨0, 0, [], ⟨some [⟨7, "C", [⟨"X", "topic X"⟩]⟩]⟩⟩
            ⟨.baseSimLog, some ⟨"X", "topic X"⟩, none, none, none, .vnone⟩ 1 5)).map
        fun p => p.1) = some (.ok [7]) := by
  refine ⟨?_, by rfl, by rfl⟩
  intro s cs e rest h
  unfold stepDispatch attachComponents
  simp only
  rw [h]

/-- Witness for C2: the concrete re-attachment scenario of the theorem's
second conjunct, through the universally quantified first conjunct. -/
theorem broadcast_resolution_at_fire_time_witness :
    popMinBy dKey
        (scheduleEvent ⟨0, 0, [], ⟨some [⟨7, "C", [⟨"X", "topic X"⟩]⟩]⟩⟩
          ⟨.baseSimLog, some ⟨"X", "topic X"⟩, none, none, none, .vnone⟩ 1 5).queue =
      some (⟨5, 1, 0, ⟨.baseSimLog, some ⟨"X", "topic X"⟩, none, none, none, .vnone⟩⟩, []) ∧
      stepDispatch
        (attachComponents
          (scheduleEvent ⟨0, 0, [], ⟨some [⟨7, "C", [⟨"X", "topic X"⟩]⟩]⟩⟩
            ⟨.baseSimLog, some ⟨"X", "topic X"⟩, none, none, none, .vnone⟩ 1 5)
          [⟨7, "C", []⟩]) =
        some (trigger_event { components := some [⟨7, "C", []⟩] }
            ⟨.baseSimLog, some ⟨"X", "topic X"⟩, none, none, none, .vnone⟩,
          ⟨5, 1, 0, ⟨.baseSimLog, some ⟨"X", "topic X"⟩, none, none, none, .vnone⟩⟩,
          { now := 5, eid := 1, queue := [],
            manager := { components := some [⟨7, "C", []⟩] } }) :=
  ⟨by rfl, broadcast_resolution_at_fire_time.1 _ [⟨7, "C", []⟩] _ [] (by rfl)⟩

/-- C3 counterexample: a `SimLogInitialize` — the event scheduled to start
and resume a `SimLogProcess` routine — carries its process's `start_topic`,
and `log_event` appends a record for it: only raw simpy
`Initialize`/`Timeout` are filtered, and `SimLogInitialize` is a
`BaseSimLogEvent` with a non-`None` topic. -/
theorem process_start_event_is_logged :
    log_event ⟨none⟩ 5 0 3
      ⟨.simLogInit, some ⟨"X", "topic X"⟩, some (.puuid 9), none, none, .vnone⟩ =
      .ok (some ⟨"X", none, none, 5, .lvNone, 3, 0, none⟩) := by rfl

/-- C3 as amended: logging a raw timeout or initialize primitive (simpy
`Timeout`, `Initialize`) produces no record, for every enabled-logging
run; but a `SimLogInitialize` routine-resume trigger — always constructed
with its process's non-`None` `start_topic` and with no stored component
state — produces a record, so the claimed invariant holds only for the
raw primitives, not for `SimLogInitialize`. -/
theorem raw_internal_events_never_logged :
    (∀ (m : Manager) (t p i : Nat) (e : SEvent),
        (isRawInit e.cls || isRawTimeout e.cls) = true →
        log_event m t p i e = .ok none) ∧
      ∀ (m : Manager) (t p i : Nat) (e : SEvent) (tp : EventTopic),
        e.cls = .simLogInit → e.topic = some tp → e.component_state = none →
        log_event m t p i e =
          .ok (some
            { topic := tp.value
              parent := resolveParent m e.parent
              single_reference := resolveSingleRef m e
              sim_time := t
              value := logValue m e.value
              simpy_id := i
              simpy_priority := p
              component_state := none }) := by
  constructor
  · intro m t p i e h
    unfold log_event
    rw [h]
    rfl
  · intro m t p i e tp hcls htp hcs
    unfold log_event
    rw [hcls, htp, hcs]
    rfl

/-- Witness for C3 as amended: a raw simpy `Timeout` is not recorded, a
concrete `SimLogInitialize` is. -/
theorem raw_internal_events_never_logged_witness :
    ((isRawInit EvClass.rawTimeout || isRawTimeout EvClass.rawTimeout) = true ∧
        log_event ⟨none⟩ 4 1 2 ⟨.rawTimeout, none, none, none, none, .vnone⟩ = .ok none) ∧
      log_event ⟨none⟩ 4 1 2
          ⟨.simLogInit, some ⟨"Y", "topic Y"⟩, none, none, none, .vnone⟩ =
        .ok (some
          { topic := (⟨"Y", "topic Y"⟩ : EventTopic).value
            parent := resolveParent ⟨none⟩ none
            single_reference :=
              resolveSingleRef ⟨none⟩ ⟨.simLogInit, some ⟨"Y", "topic Y"⟩, none, none, none, .vnone⟩
            sim_time := 4
            value := logValue ⟨none⟩ .vnone
            simpy_id := 2
            simpy_priority := 1
            component_state := none }) :=
  ⟨⟨rfl, raw_internal_events_never_logged.1 ⟨none⟩ 4 1 2 _ rfl⟩,
    raw_internal_events_never_logged.2 ⟨none⟩ 4 1 2 _ ⟨"Y", "topic Y"⟩ rfl rfl rfl⟩

/-- C4 (code bug): the `create_event` decision table fails for a given
delay of `0`.  Python truthiness (`if not (target or timeout)`,
`if not timeout`) treats `timeout=0` as not given, so `delay=0` without a
target yields an immediately-succeeded `BaseSimLogEvent` instead of the
`SimLogTimeout` the docstring's table promises, and `delay=0` with a
target yields a `SimLogUuidRefEvent` instead of a `SimLogTargetedTimeout`;
any nonzero given delay follows the table. -/
theorem create_event_zero_delay_immediate :
    create_event ⟨"T", "a topic"⟩ none (some 0) = .ok .immediate ∧
      create_event ⟨"T", "a topic"⟩ (some 7) (some 0) = .ok .uuidTargeted ∧
      create_event ⟨"T", "a topic"⟩ none (some 10) = .ok .timeoutEvent ∧
      create_event ⟨"T", "a topic"⟩ (some 7) (some 10) = .ok .targetedTimeout ∧
      create_event ⟨"T", "a topic"⟩ (some 7) none = .ok .uuidTargeted ∧
      create_event ⟨"T", "a topic"⟩ none none = .ok .immediate :=
  ⟨rfl, rfl, rfl, rfl, rfl, rfl⟩

/-- C7 counterexample: `update_state` compares `new_state is self.state`
— object identity, not string equality.  A component whose state is the
string object `⟨11, "busy"⟩` updated with the distinct but equal string
object `⟨12, "busy"⟩` emits a STATE_CHANGE event even though the contents
are equal, so "equal to the current state emits no event" is false. -/
theorem equal_string_state_emits_event :
    ((update_state ⟨none⟩ 6 ⟨1, "C", some ⟨11, "busy"⟩, 0⟩ ⟨12, "busy"⟩ none).2).isSome =
        true ∧
      (⟨12, "busy"⟩ : PyStr).val = (⟨11, "busy"⟩ : PyStr).val := by decide

/-- C7 as amended: `update_state` is idempotent up to object identity.  A
call whose `new_state` is the very object currently stored does nothing
and emits no event; and whatever the starting state, a second consecutive
call with the identical string object emits no second event — so two
consecutive updates passing the same string object emit at most one
STATE_CHANGE event.  An equal-but-distinct string object, however, does
emit (see the counterexample). -/
theorem update_state_identity_semantics :
    (∀ (m : Manager) (now : Nat) (c : BaseComponentState) (new : PyStr)
        (loc : Option Location),
        pyIs new c.state = true → update_state m now c new loc = (c, none)) ∧
      ∀ (m1 m2 : Manager) (n1 n2 : Nat) (c : BaseComponentState) (new : PyStr)
        (loc1 loc2 : Option Location),
        (update_state m2 n2 (update_state m1 n1 c new loc1).1 new loc2).2 = none := by
  constructor
  · exact fun m now c new loc h => update_state_of_pyIs m now c new loc h
  · intro m1 m2 n1 n2 c new loc1 loc2
    by_cases h : pyIs new c.state
    · rw [update_state_of_pyIs m1 n1 c new loc1 h]
      show (update_state m2 n2 c new loc2).2 = none
      rw [update_state_of_pyIs m2 n2 c new loc2 h]
    · rw [Bool.not_eq_true] at h
      rw [update_state_fst_of_not_pyIs m1 n1 c new loc1 h]
      have h2 : pyIs new ({ c with state := some new } : BaseComponentState).state = true := by
        simp [pyIs]
      rw [update_state_of_pyIs m2 n2 _ new loc2 h2]

/-- Witness for C7 as amended: both conjuncts at a concrete component. -/
theorem update_state_identity_semantics_witness :
    (pyIs ⟨11, "busy"⟩ (some ⟨11, "busy"⟩ : Option PyStr) = true ∧
        update_state ⟨none⟩ 6 ⟨1, "C", some ⟨11, "busy"⟩, 0⟩ ⟨11, "busy"⟩ none =
          (⟨1, "C", some ⟨11, "busy"⟩, 0⟩, none)) ∧
      (update_state ⟨none⟩ 7
          (update_state ⟨none⟩ 6 (mkBaseComponent 0 1 "C") ⟨11, "busy"⟩ none).1
          ⟨11, "busy"⟩ none).2 = none :=
  ⟨⟨rfl, update_state_identity_semantics.1 ⟨none⟩ 6 _ _ none rfl⟩,
    update_state_identity_semantics.2 ⟨none⟩ ⟨none⟩ 6 7 (mkBaseComponent 0 1 "C") _ none none⟩

/-- C8 counterexample: a component constructed at virtual time `0`
(stamping `last_time_state_updated := 0`) and updated with a genuinely new
state while the clock reads `5` ends with its state changed but
`last_time_state_updated` still `0`, not the current simulation time. -/
theorem update_state_timestamp_not_stamped :
    (update_state ⟨none⟩ 5 (mkBaseComponent 0 1 "C") ⟨11, "busy"⟩ none).1.state =
        some ⟨11, "busy"⟩ ∧
      (update_state ⟨none⟩ 5 (mkBaseComponent 0 1 "C") ⟨11, "busy"⟩
          none).1.last_time_state_updated = 0 ∧
      (update_state ⟨none⟩ 5 (mkBaseComponent 0 1 "C") ⟨11, "busy"⟩
          none).1.last_time_state_updated ≠ 5 := by decide

/-- C8 as amended: `update_state` never modifies
`last_time_state_updated`; whatever the current simulation time and
whether or not the state changes, the field keeps the value stamped at
construction. -/
theorem update_state_preserves_last_time (m : Manager) (now : Nat)
    (c : BaseComponentState) (new : PyStr) (loc : Option Location) :
    (update_state m now c new loc).1.last_time_state_updated =
      c.last_time_state_updated := by
  by_cases h : pyIs new c.state
  · rw [update_state_of_pyIs m now c new loc h]
  · rw [Bool.not_eq_true] at h
    rw [update_state_fst_of_not_pyIs m now c new loc h]

/-- C10.  `update_state` stores the plain state string on the emitted
STATE_CHANGE event, and `log_event` reads the state tag with
`_event.component_state.value`, an attribute a plain string lacks: the
event emitted by any state-changing `update_state` with a non-empty state
string makes `log_event` raise `AttributeError` instead of producing a
record — and so does, in general, any `BaseSimLogEvent` whose
`component_state` is a non-empty string. -/
theorem state_change_log_raises_attribute_error :
    (∀ (m m2 : Manager) (now : Nat) (c : BaseComponentState) (new : PyStr)
        (loc : Option Location) (t p i : Nat),
        pyIs new c.state = false → new.val ≠ "" →
        ((update_state m now c new loc).2.map fun ev => log_event m2 t p i ev) =
          some (.error .attributeError)) ∧
      ∀ (m : Manager) (t p i : Nat) (e : SEvent) (st : String),
        isBaseSimLogEvent e.cls = true → e.component_state = some st → st ≠ "" →
        log_event m t p i e = .error .attributeError := by
  constructor
  · intro m m2 now c new loc t p i hid hval
    rw [update_state_snd_of_not_pyIs m now c new loc hid]
    simp only [Option.map_some']
    unfold log_event
    simp [isRawInit, isRawTimeout, isBaseSimLogEvent, isSimLogSingleRef,
      isSimLogProcess, isSimLogInit, pyTruthyStateStr, hval]
  · intro m t p i e st hcls hcs hne
    unfold log_event
    have h1 : isRawInit e.cls = false := by
      cases hc : e.cls <;> simp_all [isRawInit, isBaseSimLogEvent]
    have h2 : isRawTimeout e.cls = false := by
      cases hc : e.cls <;> simp_all [isRawTimeout, isBaseSimLogEvent]
    rw [h1, h2, hcls, hcs]
    simp [pyTruthyStateStr, hne]

/-- Witness for C10: a fresh component updated to the non-empty state
string `"busy"`, whose STATE_CHANGE event makes the logger raise; and the
general form at the same event. -/
theorem state_change_log_raises_attribute_error_witness :
    (pyIs ⟨11, "busy"⟩ (mkBaseComponent 0 1 "C").state = false ∧
        (⟨11, "busy"⟩ : PyStr).val ≠ "" ∧
        ((update_state ⟨none⟩ 5 (mkBaseComponent 0 1 "C") ⟨11, "busy"⟩ none).2.map
            fun ev => log_event ⟨none⟩ 5 1 2 ev) =
          some (.error .attributeError)) ∧
      log_event ⟨none⟩ 5 1 2
          ⟨.baseSimLog, some stateChangeTopic, some (.puuid 1), none, some "busy", .vnone⟩ =
        .error .attributeError :=
  ⟨⟨rfl, by decide,
      state_change_log_raises_attribute_error.1 ⟨none⟩ ⟨none⟩ 5 _ _ none 5 1 2 rfl (by decide)⟩,
    state_change_log_raises_attribute_error.2 ⟨none⟩ 5 1 2 _ "busy" rfl rfl (by decide)⟩

end Simlog
